import Mathlib

/-
Verification of the depletion-chain assembly script
(src/depletion/generate_endf71_chain_casl.py) and the CENDL library
conversion script (src/generate_cendl.py).

The per-nuclide body of the assembly loop (lines 97-214 of the script) is
embedded as pure Lean functions.  Floating-point values are modelled as
rationals, Python dictionaries as association lists (lookup finds the first
matching key, iteration visits keys in list order), and Python exceptions
(unguarded dictionary subscripts) as Except.error.  External inputs of the
script -- the parsed decay/reaction/fission-yield records, the CASL_CHAIN
configuration table, the UNMODIFIED_DECAY_BR list, the _REACTIONS registry
and the ATOMIC_SYMBOL table -- are parameters of the embedding.
ATOMIC_SYMBOL is modelled as a total function on integers, since in the
library it is a fixed complete table of the elements.
-/

namespace Chain

/-- A decay mode as parsed from an ENDF decay file: list of mode labels,
daughter nuclide name, and branching ratio (the nominal value). -/
structure DecayMode where
  modes : List String
  daughter : String
  branching_ratio : ℚ
  deriving DecidableEq, Repr

/-- A recorded decay tuple, mirroring openmc.deplete.nuclide.DecayTuple:
(decay type string, target nuclide name, branching ratio). -/
structure DecayTuple where
  type : String
  target : String
  branching_ratio : ℚ
  deriving DecidableEq, Repr, Inhabited

/-- Target field of a recorded reaction.  The script stores either a
nuclide name, the sentinel string value used when the computed daughter has
no decay data, or the literal integer zero used for the synthetic fission
reaction. -/
inductive RxTarget where
  | nuc (name : String)
  | nothing
  | intZero
  deriving DecidableEq, Repr, Inhabited

/-- A recorded reaction tuple, mirroring openmc.deplete.nuclide.ReactionTuple:
(reaction type, target, Q value, branching ratio). -/
structure ReactionTuple where
  type : String
  target : RxTarget
  Q : ℚ
  branching_ratio : ℚ
  deriving DecidableEq, Repr, Inhabited

/-- The parts of a CASL_CHAIN entry the script reads: index 0 (flag that
skips the decay branch), index 2 (the fission-yield treatment code) and
index 3 (the weighted sub-product list used by treatment code 3, as
(name, weight, code) triples). -/
structure CaslEntry where
  skip_decay : Bool
  ifpy : Nat
  special : List (String × ℚ × Nat)
  deriving DecidableEq, Repr, Inhabited

/-- The parts of a parsed decay record the script reads. -/
structure DecayData where
  stable : Bool
  half_life : ℚ
  average_energies : List ℚ
  modes : List DecayMode
  mass_number : Int
  atomic_number : Int
  deriving DecidableEq, Repr

/-- The parts of a parsed fission-product-yield record the script reads:
the optional energy list and the per-energy independent and cumulative
yield tables (association lists from product name to nominal yield). -/
structure FPYData where
  energies : Option (List ℚ)
  independent : List (List (String × ℚ))
  cumulative : List (List (String × ℚ))
  deriving DecidableEq, Repr

/-- One entry of the fixed _REACTIONS registry: reaction name, matching MT
codes, and the mass/charge delta of the daughter. -/
structure RegEntry where
  name : String
  mts : List Nat
  deltaA : Int
  deltaZ : Int
  deriving DecidableEq, Repr

/-- A warning printed inline from the fission-yield branch of the loop. -/
inductive Warning where
  | noIndependentYields (product parent : String)
  | noCumulativeYields (product parent : String)
  | noYields (name parent : String)
  deriving DecidableEq, Repr

/-- The fields of the assembled Nuclide object the loop populates. -/
structure NuclideOut where
  name : String
  half_life : Option ℚ
  decay_energy : Option ℚ
  decay_modes : List DecayTuple
  reactions : List ReactionTuple
  yield_data : Option (List (ℚ × List (String × ℚ)))
  deriving DecidableEq, Repr, Inhabited

/-- Result of one iteration of the assembly loop: the assembled nuclide and
the per-nuclide contributions to the three warning accumulator lists that
the script prints after the loop. -/
structure AssembleOut where
  nuclide : NuclideOut
  missing_daughter : List (String × String × String)
  missing_rx_product : List (String × String × String)
  missing_fpy : List String
  deriving DecidableEq, Repr, Inhabited

/-- All inputs of one iteration of the assembly loop.  decayKeys is the key
set of the restricted decay_data dictionary; casl models the CASL_CHAIN
table (total, since every nuclide reaching a lookup is in the table by
construction of decay_data); atomicSymbol models the ATOMIC_SYMBOL table. -/
structure NuclideInput where
  parent : String
  ddata : DecayData
  decayKeys : List String
  casl : String → CaslEntry
  unmodified : List String
  registry : List RegEntry
  rxTable : Option (List (Nat × ℚ))
  fpy : Option FPYData
  atomicSymbol : Int → String

/-- Decay type string of a mode, as built by the script with a comma join. -/
def joinComma (l : List String) : String :=
  String.intercalate "," l

/-- Lines 112-122: record each decay mode whose daughter has decay data;
modes whose daughter is absent go to the missing_daughter list instead. -/
def buildDecay (parent : String) (decayKeys : List String) :
    List DecayMode → List DecayTuple × List (String × String × String)
  | [] => ([], [])
  | m :: rest =>
    let (dts, md) := buildDecay parent decayKeys rest
    if m.daughter ∈ decayKeys then
      (⟨joinComma m.modes, m.daughter, m.branching_ratio⟩ :: dts, md)
    else
      (dts, (parent, m.daughter, joinComma m.modes) :: md)

/-- Lines 124-130: if the branching ratios do not sum to one, the list is
nonempty and the parent is not excluded, pop the last tuple and re-append
it with ratio one minus the sum of the remaining ratios. -/
def normalizeBR (parent : String) (unmodified : List String)
    (dm : List DecayTuple) : List DecayTuple :=
  if (dm.map (·.branching_ratio)).sum ≠ 1 ∧ dm ≠ [] ∧ parent ∉ unmodified then
    match dm.getLast? with
    | none => dm
    | some last =>
      dm.dropLast ++
        [⟨last.type, last.target, 1 - (dm.dropLast.map (·.branching_ratio)).sum⟩]
  else dm

/-- Lines 106-130: the decay branch of the loop.  Returns the half-life,
decay energy, recorded decay tuples and missing-daughter entries; all empty
when the branch is skipped (flagged entry, stable nuclide, or zero
half-life). -/
def decayStage (inp : NuclideInput) :
    Option ℚ × Option ℚ × List DecayTuple × List (String × String × String) :=
  if (inp.casl inp.parent).skip_decay = false ∧ inp.ddata.stable = false ∧
      inp.ddata.half_life ≠ 0 then
    (some inp.ddata.half_life, some inp.ddata.average_energies.sum,
     normalizeBR inp.parent inp.unmodified
       (buildDecay inp.parent inp.decayKeys inp.ddata.modes).1,
     (buildDecay inp.parent inp.decayKeys inp.ddata.modes).2)
  else (none, none, [], [])

/-- Lines 150-157: Q value of the first MT code, in ascending order, that
is present in the nuclide's reaction table; zero when none is present. -/
def qLookup (mts : List Nat) (t : List (Nat × ℚ)) : ℚ :=
  match (List.insertionSort (· ≤ ·) mts).find? (fun mt => (t.lookup mt).isSome) with
  | some mt => (t.lookup mt).getD 0
  | none => 0

/-- Lines 139-141: name of the daughter nuclide computed from the registry
entry's mass/charge delta. -/
def daughterName (inp : NuclideInput) (e : RegEntry) : String :=
  inp.atomicSymbol (inp.ddata.atomic_number + e.deltaZ) ++
    toString (inp.ddata.mass_number + e.deltaA)

/-- Whether a registry entry has a matching MT code in the reaction table:
the test mts & reactions_available on line 137. -/
def triggered (t : List (Nat × ℚ)) (e : RegEntry) : Bool :=
  e.mts.any fun mt => (t.lookup mt).isSome

/-- Lines 136-160: the registry loop.  For each registry entry with a
matching MT code present, record a reaction tuple (with the sentinel target
and a missing_rx_product entry when the computed daughter has no decay
data). -/
def rxLoop (inp : NuclideInput) (t : List (Nat × ℚ)) :
    List RegEntry → List ReactionTuple × List (String × String × String)
  | [] => ([], [])
  | e :: rest =>
    let (ts, ms) := rxLoop inp t rest
    if triggered t e = true then
      let dName := daughterName inp e
      if dName ∈ inp.decayKeys then
        (⟨e.name, RxTarget.nuc dName, qLookup e.mts t, 1⟩ :: ts, ms)
      else
        (⟨e.name, RxTarget.nothing, qLookup e.mts t, 1⟩ :: ts,
         (inp.parent, e.name, dName) :: ms)
    else (ts, ms)

/-- The tuple recorded for one triggered registry entry (the body of lines
143-160, with the daughter replaced by the sentinel when absent). -/
def mkRx (inp : NuclideInput) (t : List (Nat × ℚ)) (e : RegEntry) :
    ReactionTuple :=
  if daughterName inp e ∈ inp.decayKeys then
    ⟨e.name, RxTarget.nuc (daughterName inp e), qLookup e.mts t, 1⟩
  else ⟨e.name, RxTarget.nothing, qLookup e.mts t, 1⟩

/-- Reaction tuples and warnings from the registry loop; empty when the
nuclide has no incident-neutron data. -/
def rxPart (inp : NuclideInput) :
    List ReactionTuple × List (String × String × String) :=
  match inp.rxTable with
  | none => ([], [])
  | some t => rxLoop inp t inp.registry

/-- The fission-indicating MT codes of line 163. -/
def fissionMTs : List Nat := [18, 19, 20, 21, 38]

/-- Lines 162-172: if a fission MT code is present then either add the
synthetic fission tuple using the MT=18 Q value (an unguarded dictionary
subscript: a missing MT=18 entry raises), or record the parent in the
missing_fpy list when it has no fission-yield data. -/
def fissionStage (parent : String) (t : List (Nat × ℚ)) (fpyPresent : Bool) :
    Except String (List ReactionTuple × List String) :=
  if fissionMTs.any (fun mt => (t.lookup mt).isSome) then
    if fpyPresent then
      match t.lookup 18 with
      | none => .error "KeyError: MT 18 not in reaction table"
      | some q => .ok ([⟨"fission", RxTarget.intZero, q, 1⟩], [])
    else .ok ([], [parent])
  else .ok ([], [])

/-- Fission tuples and missing_fpy entries; trivially ok when the nuclide
has no incident-neutron data. -/
def fissionPart (inp : NuclideInput) :
    Except String (List ReactionTuple × List String) :=
  match inp.rxTable with
  | none => .ok ([], [])
  | some t => fissionStage inp.parent t inp.fpy.isSome

/-- Semantics of the defaultdict update yields[p] += v: add v to the entry
for p, inserting it at the end when absent. -/
def addYield : List (String × ℚ) → String → ℚ → List (String × ℚ)
  | [], p, v => [(p, v)]
  | (q, w) :: rest, p, v =>
    if q = p then (q, w + v) :: rest else (q, w) :: addYield rest p v

/-- Lines 203-210: the weighted sub-product loop of treatment code 3.  Each
sub-product absent from the independent table is warned about and skipped;
otherwise code 1 adds the weighted independent yield, and code 2 adds the
weighted cumulative yield through an unguarded subscript of the cumulative
table (raising when the entry is absent). -/
def subYields (parent : String) (yd yc : List (String × ℚ))
    (acc : List (String × ℚ)) (product : String) :
    List (String × ℚ × Nat) → List Warning × Except String (List (String × ℚ))
  | [] => ([], .ok acc)
  | (n, w, c) :: rest =>
    match yd.lookup n with
    | none =>
      let r := subYields parent yd yc acc product rest
      (Warning.noYields n parent :: r.1, r.2)
    | some v =>
      if c = 1 then
        subYields parent yd yc (addYield acc product (w * v)) product rest
      else if c = 2 then
        match yc.lookup n with
        | none => ([], .error "KeyError: sub-product not in cumulative table")
        | some vc =>
          subYields parent yd yc (addYield acc product (w * vc)) product rest
      else
        subYields parent yd yc acc product rest

/-- Lines 185-210: contribution of one product to the per-energy yield
mapping, dispatching on the product's treatment code.  Products without
decay data are skipped silently. -/
def productYield (parent : String) (casl : String → CaslEntry)
    (decayKeys : List String) (yd yc : List (String × ℚ))
    (acc : List (String × ℚ)) (product : String) :
    List Warning × Except String (List (String × ℚ)) :=
  if product ∈ decayKeys then
    if (casl product).ifpy = 1 then
      match yd.lookup product with
      | none => ([Warning.noIndependentYields product parent], .ok acc)
      | some v => ([], .ok (addYield acc product v))
    else if (casl product).ifpy = 2 then
      match yc.lookup product with
      | none => ([Warning.noCumulativeYields product parent], .ok acc)
      | some v => ([], .ok (addYield acc product v))
    else if (casl product).ifpy = 3 then
      subYields parent yd yc acc product (casl product).special
    else ([], .ok acc)
  else ([], .ok acc)

/-- Fold productYield over the products of one energy row, accumulating the
printed warnings and stopping at the first raised exception. -/
def prodFold (parent : String) (casl : String → CaslEntry)
    (decayKeys : List String) (yd yc : List (String × ℚ))
    (acc : List (String × ℚ)) :
    List String → List Warning × Except String (List (String × ℚ))
  | [] => ([], .ok acc)
  | p :: rest =>
    match productYield parent casl decayKeys yd yc acc p with
    | (ws, .error e) => (ws, .error e)
    | (ws, .ok acc2) =>
      let r := prodFold parent casl decayKeys yd yc acc2 rest
      (ws ++ r.1, r.2)

/-- Truncating three-way zip, as Python's zip of three sequences. -/
def zip3 {α β γ : Type} : List α → List β → List γ → List (α × β × γ)
  | a :: as, b :: bs, c :: cs => (a, b, c) :: zip3 as bs cs
  | _, _, _ => []

/-- Lines 177-183: the energy rows iterated by the yield branch: the energy
list (or the single energy zero when absent) zipped with the independent
and cumulative tables. -/
def yieldRows (f : FPYData) :
    List (ℚ × List (String × ℚ) × List (String × ℚ)) :=
  zip3 (f.energies.getD [0]) f.independent f.cumulative

/-- Lines 182-212: build the per-energy yield mappings, iterating the
products of each independent table. -/
def rowFold (parent : String) (casl : String → CaslEntry)
    (decayKeys : List String) :
    List (ℚ × List (String × ℚ) × List (String × ℚ)) →
      List Warning × Except String (List (ℚ × List (String × ℚ)))
  | [] => ([], .ok [])
  | (e, yd, yc) :: rest =>
    match prodFold parent casl decayKeys yd yc [] (yd.map Prod.fst) with
    | (ws, .error err) => (ws, .error err)
    | (ws, .ok ys) =>
      let r := rowFold parent casl decayKeys rest
      (ws ++ r.1, r.2.map fun rows => (e, ys) :: rows)

/-- Lines 174-214: the fission-yield branch; produces the yield
distribution when the nuclide has fission-yield data. -/
def yieldsStage (inp : NuclideInput) :
    List Warning × Except String (Option (List (ℚ × List (String × ℚ)))) :=
  match inp.fpy with
  | none => ([], .ok none)
  | some f =>
    match rowFold inp.parent inp.casl inp.decayKeys (yieldRows f) with
    | (ws, .error e) => (ws, .error e)
    | (ws, .ok rows) => (ws, .ok (some rows))

/-- One iteration of the assembly loop (lines 97-214): decay branch, the
registry loop, the fission check (which can raise before the yield branch
runs), then the yield branch.  The first component collects the warnings
printed inline from the yield branch; the missing_daughter,
missing_rx_product and missing_fpy accumulators are returned in the ok
result, as they are only printed after the loop completes. -/
def assembleNuclide (inp : NuclideInput) :
    List Warning × Except String AssembleOut :=
  match fissionPart inp with
  | .error e => ([], .error e)
  | .ok fr =>
    match yieldsStage inp with
    | (yws, .error e) => (yws, .error e)
    | (yws, .ok ydata) =>
      (yws, .ok
        { nuclide :=
            { name := inp.parent
              half_life := (decayStage inp).1
              decay_energy := (decayStage inp).2.1
              decay_modes := (decayStage inp).2.2.1
              reactions := (rxPart inp).1 ++ fr.1
              yield_data := ydata }
          missing_daughter := (decayStage inp).2.2.2
          missing_rx_product := (rxPart inp).2
          missing_fpy := fr.2 })

/-- The condition under which the fission check raises: a fission MT code
present, fission-yield data present, but no MT=18 entry in the table. -/
def fissionCrash (inp : NuclideInput) : Bool :=
  match inp.rxTable with
  | none => false
  | some t =>
    (fissionMTs.any fun mt => (t.lookup mt).isSome) && inp.fpy.isSome &&
      (t.lookup 18).isNone

/-- A sub-product list entry that makes subYields raise: present in the
independent table, code 2, absent from the cumulative table. -/
def badSpecial (yd yc : List (String × ℚ)) (l : List (String × ℚ × Nat)) : Bool :=
  l.any fun s => (yd.lookup s.1).isSome && decide (s.2.2 = 2) && (yc.lookup s.1).isNone

/-- The condition under which the yield branch raises for one product. -/
def productCrash (casl : String → CaslEntry) (decayKeys : List String)
    (yd yc : List (String × ℚ)) (p : String) : Bool :=
  decide (p ∈ decayKeys) && decide ((casl p).ifpy = 3) &&
    badSpecial yd yc (casl p).special

/-- The condition under which the yield branch raises. -/
def yieldCrash (inp : NuclideInput) : Bool :=
  match inp.fpy with
  | none => false
  | some f =>
    (yieldRows f).any fun r =>
      (r.2.1.map Prod.fst).any fun p =>
        productCrash inp.casl inp.decayKeys r.2.1 r.2.2 p

/-- Recognizer for the unreachable independent-yield warning. -/
def Warning.isNoIndep : Warning → Bool
  | .noIndependentYields _ _ => true
  | _ => false

end Chain

namespace Cendl

/-
Embedding of the conversion loop of src/generate_cendl.py (lines 107-128).
A file is its path, its basename and its content split on CRLF into lines.
The external converter (IncidentNeutron.from_njoy followed by
export_to_hdf5) is abstracted by the function nameOf from the file's
post-patch content to the name used for the output file; the manifest
accumulated by library.register_file is the list of produced HDF5 paths.
-/

/-- One input evaluation file: path, basename, and CRLF-split lines. -/
structure ConvFile where
  path : String
  basename : String
  lines : List String
  deriving DecidableEq, Repr

/-- Replacement for line 205 of 22-Ti-047.C31 (line 114 of the script). -/
def ti47Line : String :=
  " 8) YUAN Junqian,WANG Yongchang,etc.               ,16,(1),57,92012228 1451  205"

/-- Replacement for line 203 of 5-B-010.C31 (line 116 of the script). -/
def b10Line : String :=
  "21)   Day R.B. and Walt M.  Phys.rev.117,1330 (1960)               525 1451  203"

/-- Python list assignment text[i] = s: raises IndexError when i is out of
range. -/
def setLine (text : List String) (i : Nat) (s : String) :
    Except String (List String) :=
  if i < text.length then .ok (text.set i s) else .error "IndexError"

/-- Lines 110-117: the hard-coded in-place patch applied before conversion
to the two known files of release 3.1; every other file is left unchanged.
The two inner conditions mirror the two consecutive if statements of the
script. -/
def patchFile (release : String) (basename : String) (text : List String) :
    Except String (List String) :=
  if release = "3.1" ∧
      (basename = "22-Ti-047.C31" ∨ basename = "5-B-010.C31") then
    match (if basename = "22-Ti-047.C31" then setLine text 205 ti47Line
           else .ok text) with
    | .error e => .error e
    | .ok t1 =>
      if basename = "5-B-010.C31" then setLine t1 203 b10Line else .ok t1
  else .ok text

/-- One loop iteration: patch, convert, and produce the manifest entry
destination/name.h5 registered for the file. -/
def convertOne (release : String) (nameOf : List String → String)
    (dest : String) (f : ConvFile) : Except String (ConvFile × String) :=
  match patchFile release f.basename f.lines with
  | .error e => .error e
  | .ok newLines =>
    .ok ({ f with lines := newLines }, dest ++ "/" ++ nameOf newLines ++ ".h5")

/-- Lines 107-128: the conversion loop over the (already sorted) list of
input files, returning the final file contents and the manifest. -/
def processFiles (release : String) (nameOf : List String → String)
    (dest : String) :
    List ConvFile → Except String (List ConvFile × List String)
  | [] => .ok ([], [])
  | f :: rest =>
    match convertOne release nameOf dest f with
    | .error e => .error e
    | .ok (f2, h5) =>
      match processFiles release nameOf dest rest with
      | .error e => .error e
      | .ok (fs, manifest) => .ok (f2 :: fs, h5 :: manifest)

/-- The content the patch is expected to produce for a file, stated
directly from the claim: line 205 replaced for 22-Ti-047.C31, line 203 for
5-B-010.C31, all other files unchanged. -/
def expectedLines (f : ConvFile) : List String :=
  if f.basename = "22-Ti-047.C31" then f.lines.set 205 ti47Line
  else if f.basename = "5-B-010.C31" then f.lines.set 203 b10Line
  else f.lines

end Cendl

namespace Chain

/-- Concrete input for the branching-ratio claim: two decay modes with
ratios 6/10 and 39/100, both daughters present. -/
def exC1 : NuclideInput :=
  { parent := "P"
    ddata := { stable := false, half_life := 1, average_energies := [2, 3],
               modes := [⟨["beta-"], "D1", 6/10⟩, ⟨["alpha"], "D2", 39/100⟩],
               mass_number := 10, atomic_number := 5 }
    decayKeys := ["P", "D1", "D2"]
    casl := fun _ => ⟨false, 0, []⟩
    unmodified := []
    registry := []
    rxTable := none
    fpy := none
    atomicSymbol := fun _ => "X" }

/-- The assembled output for exC1: the second mode's ratio replaced by
1 - 3/5 = 2/5, which is exactly 0.4. -/
def exC1out : AssembleOut :=
  { nuclide := { name := "P", half_life := some 1, decay_energy := some 5,
                 decay_modes := [⟨"beta-", "D1", 3/5⟩, ⟨"alpha", "D2", 2/5⟩],
                 reactions := [], yield_data := none },
    missing_daughter := [], missing_rx_product := [], missing_fpy := [] }

/-- Concrete input with MT=18 present, fission yields present. -/
def exC2 : NuclideInput :=
  { parent := "U5"
    ddata := { stable := true, half_life := 0, average_energies := [], modes := [],
               mass_number := 235, atomic_number := 92 }
    decayKeys := ["U5"]
    casl := fun _ => ⟨false, 0, []⟩
    unmodified := []
    registry := [⟨"(n,gamma)", [102], 1, 0⟩]
    rxTable := some [(18, 7), (102, 2)]
    fpy := some { energies := none, independent := [[]], cumulative := [[]] }
    atomicSymbol := fun _ => "El" }

/-- The assembled output for exC2: exactly one fission tuple, with the
MT=18 Q value. -/
def exC2out : AssembleOut :=
  { nuclide := { name := "U5", half_life := none, decay_energy := none,
                 decay_modes := [],
                 reactions := [⟨"(n,gamma)", RxTarget.nothing, 2, 1⟩,
                               ⟨"fission", RxTarget.intZero, 7, 1⟩],
                 yield_data := some [(0, [])] },
    missing_daughter := [], missing_rx_product := [("U5", "(n,gamma)", "El236")],
    missing_fpy := [] }

/-- Concrete input with a fission MT code (19) present, fission yields
present, but no MT=18 entry in the reaction table. -/
def exC2bad : NuclideInput :=
  { exC2 with parent := "Q", registry := [],
              rxTable := some [(19, 5)] }

/-- Concrete benign input exercising the reaction and yield branches. -/
def exC3 : NuclideInput :=
  { parent := "U8"
    ddata := { stable := true, half_life := 0, average_energies := [], modes := [],
               mass_number := 238, atomic_number := 92 }
    decayKeys := ["U8", "P"]
    casl := fun s => if s = "P" then ⟨false, 1, []⟩ else ⟨false, 0, []⟩
    unmodified := []
    registry := [⟨"(n,gamma)", [102], 1, 0⟩]
    rxTable := some [(18, 7), (102, 2)]
    fpy := some { energies := some [0], independent := [[("P", 1/10)]],
                  cumulative := [[("P", 3/10)]] }
    atomicSymbol := fun _ => "El" }

/-- Concrete input whose weighted-yield branch hits the unguarded
cumulative-table subscript: sub-product SX has code 2, is present in the
independent table but absent from the cumulative table. -/
def exC3bad : NuclideInput :=
  { parent := "T"
    ddata := { stable := true, half_life := 0, average_energies := [], modes := [],
               mass_number := 1, atomic_number := 1 }
    decayKeys := ["PX"]
    casl := fun s => if s = "PX" then ⟨false, 3, [("SX", 2, 2)]⟩ else ⟨false, 0, []⟩
    unmodified := []
    registry := []
    rxTable := none
    fpy := some { energies := some [0], independent := [[("PX", 1/10), ("SX", 1/5)]],
                  cumulative := [[]] }
    atomicSymbol := fun _ => "X" }

/-- Concrete input for the Q-value claim. -/
def exC4 : NuclideInput :=
  { parent := "P4"
    ddata := { stable := true, half_life := 0, average_energies := [], modes := [],
               mass_number := 10, atomic_number := 5 }
    decayKeys := ["P4"]
    casl := fun _ => ⟨false, 0, []⟩
    unmodified := []
    registry := [⟨"(n,2n)", [16], -1, 0⟩]
    rxTable := some [(16, 9)]
    fpy := none
    atomicSymbol := fun _ => "X" }

/-- The reaction table of exC4. -/
def exC4t : List (Nat × ℚ) := [(16, 9)]

/-- Concrete input for the missing-daughter claim: one daughter present,
one absent. -/
def exC5 : NuclideInput :=
  { parent := "P5"
    ddata := { stable := false, half_life := 2, average_energies := [1],
               modes := [⟨["beta-"], "D1", 1/2⟩, ⟨["sf"], "DX", 1/2⟩],
               mass_number := 10, atomic_number := 5 }
    decayKeys := ["P5", "D1"]
    casl := fun _ => ⟨false, 0, []⟩
    unmodified := []
    registry := []
    rxTable := none
    fpy := none
    atomicSymbol := fun _ => "X" }

/-- The assembled output for exC5: the D1 mode recorded (ratio then
renormalized to 1), the DX mode dropped with a missing-daughter entry. -/
def exC5out : AssembleOut :=
  { nuclide := { name := "P5", half_life := some 2, decay_energy := some 1,
                 decay_modes := [⟨"beta-", "D1", 1⟩],
                 reactions := [], yield_data := none },
    missing_daughter := [("P5", "DX", "sf")], missing_rx_product := [],
    missing_fpy := [] }

/-- Concrete input for the sentinel-product claim: the computed daughter
Sy11 has no decay data. -/
def exC6 : NuclideInput :=
  { parent := "P6"
    ddata := { stable := true, half_life := 0, average_energies := [], modes := [],
               mass_number := 10, atomic_number := 5 }
    decayKeys := ["P6"]
    casl := fun _ => ⟨false, 0, []⟩
    unmodified := []
    registry := [⟨"(n,gamma)", [102], 1, 0⟩]
    rxTable := some [(102, 2)]
    fpy := none
    atomicSymbol := fun _ => "Sy" }

/-- The reaction table of exC6. -/
def exC6t : List (Nat × ℚ) := [(102, 2)]

/-- Concrete CASL table for the yield-dispatch claim: product PW uses
treatment code 3 with three sub-products. -/
def exC7casl : String → CaslEntry := fun s =>
  if s = "PW" then ⟨false, 3, [("A1", 2, 1), ("A2", 3, 2), ("A3", 1, 5)]⟩
  else ⟨false, 1, []⟩

/-- Independent yield table for the yield-dispatch claim. -/
def exC7yd : List (String × ℚ) := [("PW", 1/10), ("A1", 1/7), ("A2", 1/11)]

/-- Cumulative yield table for the yield-dispatch claim. -/
def exC7yc : List (String × ℚ) := [("A2", 1/13)]

/-- Concrete input whose yield branch aborts: sub-product SV has code 2,
is in the independent table, but not in the cumulative table. -/
def exC7bad : NuclideInput :=
  { parent := "V"
    ddata := { stable := true, half_life := 0, average_energies := [], modes := [],
               mass_number := 1, atomic_number := 1 }
    decayKeys := ["PV"]
    casl := fun s => if s = "PV" then ⟨false, 3, [("SV", 1, 2)]⟩ else ⟨false, 0, []⟩
    unmodified := []
    registry := []
    rxTable := none
    fpy := some { energies := some [0], independent := [[("PV", 1/10), ("SV", 1/5)]],
                  cumulative := [[]] }
    atomicSymbol := fun _ => "X" }

/-- Concrete input for the yield-key claim: product ZZ appears in the raw
yield table but has no decay data. -/
def exC9 : NuclideInput :=
  { parent := "M"
    ddata := { stable := true, half_life := 0, average_energies := [], modes := [],
               mass_number := 1, atomic_number := 1 }
    decayKeys := ["PM", "M"]
    casl := fun s => if s = "PM" then ⟨false, 1, []⟩ else ⟨false, 0, []⟩
    unmodified := []
    registry := []
    rxTable := none
    fpy := some { energies := some [1/4], independent := [[("PM", 1/10), ("ZZ", 1/5)]],
                  cumulative := [[]] }
    atomicSymbol := fun _ => "X" }

/-- The assembled output for exC9: PM keeps its yield, ZZ is excluded. -/
def exC9out : AssembleOut :=
  { nuclide := { name := "M", half_life := none, decay_energy := none,
                 decay_modes := [], reactions := [],
                 yield_data := some [(1/4, [("PM", 1/10)])] },
    missing_daughter := [], missing_rx_product := [], missing_fpy := [] }

end Chain

namespace Cendl

/-- Concrete input files for the conversion-loop claim: the two patched
files (with enough lines) and one ordinary file. -/
def exC8files : List ConvFile :=
  [⟨"dir/22-Ti-047.C31", "22-Ti-047.C31", List.replicate 206 "t"⟩,
   ⟨"dir/5-B-010.C31", "5-B-010.C31", List.replicate 204 "b"⟩,
   ⟨"dir/1-H-001.C31", "1-H-001.C31", ["line0"]⟩]

/-- Abstract converter used by the conversion-loop witness. -/
def exC8name : List String → String := fun _ => "nuc"

end Cendl

namespace Chain

/-- Destructuring of a successful loop iteration: the fission check and
the yield branch succeeded and the output is assembled from the stages. -/
theorem assembleNuclide_ok (inp : NuclideInput) (out : AssembleOut)
    (h : (assembleNuclide inp).2 = .ok out) :
    ∃ fr ydata yws, fissionPart inp = .ok fr ∧ yieldsStage inp = (yws, .ok ydata) ∧
      out = { nuclide :=
                { name := inp.parent
                  half_life := (decayStage inp).1
                  decay_energy := (decayStage inp).2.1
                  decay_modes := (decayStage inp).2.2.1
                  reactions := (rxPart inp).1 ++ fr.1
                  yield_data := ydata }
              missing_daughter := (decayStage inp).2.2.2
              missing_rx_product := (rxPart inp).2
              missing_fpy := fr.2 } := by
  unfold assembleNuclide at h
  cases hf : fissionPart inp with
  | error e => rw [hf] at h; simp at h
  | ok fr =>
    rw [hf] at h
    cases hy : yieldsStage inp with
    | mk yws yres =>
      rw [hy] at h
      cases yres with
      | error e => simp at h
      | ok ydata =>
        refine ⟨fr, ydata, yws, rfl, rfl, ?_⟩
        simp only [Except.ok.injEq] at h
        exact h.symm

/-- The renormalization returns the empty list only on the empty list. -/
theorem normalizeBR_eq_nil (parent : String) (unmodified : List String)
    (dm : List DecayTuple) (h : normalizeBR parent unmodified dm = []) :
    dm = [] := by
  by_contra hne
  unfold normalizeBR at h
  split at h
  · rcases List.eq_nil_or_concat dm with h0 | ⟨L, b, rfl⟩
    · exact hne h0
    · simp only [List.concat_eq_append, List.getLast?_concat] at h
      simp at h
  · exact hne h

/-- After renormalization of a nonempty list of a non-excluded parent, the
branching ratios sum to one. -/
theorem normalizeBR_sum (parent : String) (unmodified : List String)
    (dm : List DecayTuple) (h1 : dm ≠ []) (h2 : parent ∉ unmodified) :
    ((normalizeBR parent unmodified dm).map (·.branching_ratio)).sum = 1 := by
  unfold normalizeBR
  by_cases hs : (dm.map (·.branching_ratio)).sum = 1
  · rw [if_neg (by simp [hs])]; exact hs
  · rw [if_pos ⟨hs, h1, h2⟩]
    rcases List.eq_nil_or_concat dm with h0 | ⟨L, b, rfl⟩
    · exact absurd h0 h1
    · simp only [List.concat_eq_append, List.getLast?_concat]
      simp only [List.dropLast_concat, List.map_append, List.sum_append,
        List.map_cons, List.map_nil, List.sum_cons, List.sum_nil]
      ring

/-- C1: for every assembled nuclide with at least one recorded decay mode
whose parent is not in UNMODIFIED_DECAY_BR, the recorded branching ratios
sum to exactly one. -/
theorem c1_branching_ratio_sum (inp : NuclideInput) (out : AssembleOut)
    (hok : (assembleNuclide inp).2 = .ok out)
    (hne : out.nuclide.decay_modes ≠ [])
    (hu : inp.parent ∉ inp.unmodified) :
    (out.nuclide.decay_modes.map (·.branching_ratio)).sum = 1 := by
  obtain ⟨fr, ydata, yws, hf, hy, rfl⟩ := assembleNuclide_ok inp out hok
  simp only at hne ⊢
  unfold decayStage at hne ⊢
  by_cases hc : (inp.casl inp.parent).skip_decay = false ∧
      inp.ddata.stable = false ∧ inp.ddata.half_life ≠ 0
  · rw [if_pos hc] at hne ⊢
    refine normalizeBR_sum _ _ _ (fun hnil => hne ?_) hu
    rw [hnil]
    simp [normalizeBR]
  · rw [if_neg hc] at hne
    simp at hne

/-- Witness for c1_branching_ratio_sum: on the 6/10 and 39/100 input the
recorded ratios are 3/5 and 2/5 (the second mode adjusted to exactly 2/5,
that is 0.4), and they sum to one. -/
theorem c1_branching_ratio_sum_witness :
    (assembleNuclide exC1).2 = .ok exC1out ∧
    exC1out.nuclide.decay_modes.map (·.branching_ratio) = [3/5, 2/5] ∧
    (exC1out.nuclide.decay_modes.map (·.branching_ratio)).sum = 1 :=
  ⟨by norm_num [exC1out, exC1, assembleNuclide, fissionPart, yieldsStage, decayStage,
      buildDecay, normalizeBR, joinComma, rxPart, String.intercalate,
      String.intercalate.go, List.cons_ne_nil],
   by norm_num [exC1out],
   c1_branching_ratio_sum exC1 exC1out
     (by norm_num [exC1out, exC1, assembleNuclide, fissionPart, yieldsStage, decayStage,
        buildDecay, normalizeBR, joinComma, rxPart, String.intercalate,
        String.intercalate.go, List.cons_ne_nil])
     (by simp only [exC1out]; exact List.cons_ne_nil _ _) (by decide)⟩

/-- The renormalization never changes the (type, target) pairs of the
recorded decay tuples. -/
theorem normalizeBR_map_pair (parent : String) (unmodified : List String)
    (dm : List DecayTuple) :
    (normalizeBR parent unmodified dm).map (fun t => (t.type, t.target)) =
      dm.map (fun t => (t.type, t.target)) := by
  unfold normalizeBR
  split
  · rcases List.eq_nil_or_concat dm with rfl | ⟨L, b, rfl⟩
    · simp
    · simp only [List.concat_eq_append, List.getLast?_concat]
      simp [List.dropLast_concat]
  · rfl

/-- Characterization of the per-mode loop: recorded tuples come exactly
from the modes with present daughters, missing-daughter entries exactly
from the others, in order. -/
theorem buildDecay_eq (parent : String) (keys : List String)
    (modes : List DecayMode) :
    buildDecay parent keys modes =
      ((modes.filter fun m => decide (m.daughter ∈ keys)).map
         fun m => (⟨joinComma m.modes, m.daughter, m.branching_ratio⟩ : DecayTuple),
       (modes.filter fun m => !decide (m.daughter ∈ keys)).map
         fun m => (parent, m.daughter, joinComma m.modes)) := by
  induction modes with
  | nil => rfl
  | cons m rest ih =>
    simp only [buildDecay, ih, List.filter_cons]
    by_cases h : m.daughter ∈ keys <;> simp [h]

/-- C5: a decay mode is recorded (as a (type, target) tuple) exactly when
its daughter is in the restricted decay-data set, and the modes with
absent daughters are exactly the missing-daughter entries. -/
theorem c5_decay_mode_iff (inp : NuclideInput) (out : AssembleOut)
    (hok : (assembleNuclide inp).2 = .ok out)
    (hskip : (inp.casl inp.parent).skip_decay = false)
    (hst : inp.ddata.stable = false)
    (hhl : inp.ddata.half_life ≠ 0) :
    out.nuclide.decay_modes.map (fun t => (t.type, t.target)) =
      (inp.ddata.modes.filter fun m => decide (m.daughter ∈ inp.decayKeys)).map
        (fun m => (joinComma m.modes, m.daughter)) ∧
    out.missing_daughter =
      (inp.ddata.modes.filter fun m => !decide (m.daughter ∈ inp.decayKeys)).map
        (fun m => (inp.parent, m.daughter, joinComma m.modes)) := by
  obtain ⟨fr, ydata, yws, hf, hy, rfl⟩ := assembleNuclide_ok inp out hok
  simp only
  unfold decayStage
  rw [if_pos ⟨hskip, hst, hhl⟩]
  simp only
  constructor
  · rw [normalizeBR_map_pair, buildDecay_eq]
    simp [List.map_map, Function.comp]
  · rw [buildDecay_eq]

/-- Witness for c5_decay_mode_iff at exC5: the D1 mode is recorded, the DX
mode is dropped into the missing-daughter list. -/
theorem c5_decay_mode_iff_witness :
    (assembleNuclide exC5).2 = .ok exC5out ∧
    (exC5out.nuclide.decay_modes.map (fun t => (t.type, t.target)) =
      (exC5.ddata.modes.filter fun m => decide (m.daughter ∈ exC5.decayKeys)).map
        (fun m => (joinComma m.modes, m.daughter)) ∧
     exC5out.missing_daughter =
      (exC5.ddata.modes.filter fun m => !decide (m.daughter ∈ exC5.decayKeys)).map
        (fun m => (exC5.parent, m.daughter, joinComma m.modes))) :=
  ⟨by simp [exC5out, exC5, assembleNuclide, fissionPart, yieldsStage, decayStage,
      buildDecay, normalizeBR, joinComma, rxPart, String.intercalate,
      String.intercalate.go],
   c5_decay_mode_iff exC5 exC5out
     (by simp [exC5out, exC5, assembleNuclide, fissionPart, yieldsStage, decayStage,
        buildDecay, normalizeBR, joinComma, rxPart, String.intercalate,
        String.intercalate.go])
     rfl rfl (by decide)⟩

/-- find? on a list sorted ascending returns a minimal satisfying element. -/
theorem sorted_find_min {p : Nat → Bool} :
    ∀ l : List Nat, l.Sorted (· ≤ ·) → ∀ x, l.find? p = some x →
      ∀ y ∈ l, p y = true → x ≤ y := by
  intro l
  induction l with
  | nil => intro _ x hx; simp at hx
  | cons a tl ih =>
    intro hs x hx y hy hpy
    rw [List.sorted_cons] at hs
    by_cases hpa : p a = true
    · rw [List.find?_cons_of_pos _ hpa] at hx
      injection hx with hx
      subst hx
      rcases List.mem_cons.mp hy with rfl | hy2
      · exact le_refl _
      · exact hs.1 y hy2
    · rw [List.find?_cons_of_neg _ hpa] at hx
      rcases List.mem_cons.mp hy with rfl | hy2
      · exact absurd hpy hpa
      · exact ih hs.2 x hx y hy2 hpy

/-- The Q-value lookup returns the table entry of the smallest matching MT
code present, and zero when none is present. -/
theorem qLookup_spec (mts : List Nat) (t : List (Nat × ℚ)) :
    (∃ mt ∈ mts, (∃ q, t.lookup mt = some q ∧ qLookup mts t = q) ∧
       ∀ mt2 ∈ mts, (t.lookup mt2).isSome → mt ≤ mt2) ∨
    ((∀ mt ∈ mts, t.lookup mt = none) ∧ qLookup mts t = 0) := by
  unfold qLookup
  cases hf : (List.insertionSort (· ≤ ·) mts).find? (fun mt => (t.lookup mt).isSome) with
  | none =>
    right
    refine ⟨?_, rfl⟩
    intro mt hmt
    have hmem : mt ∈ List.insertionSort (· ≤ ·) mts :=
      (List.perm_insertionSort (· ≤ ·) mts).mem_iff.mpr hmt
    have hn := List.find?_eq_none.mp hf mt hmem
    exact Option.not_isSome_iff_eq_none.mp (by simpa using hn)
  | some mt =>
    left
    have hp : (t.lookup mt).isSome = true := by simpa using List.find?_some hf
    have hmem : mt ∈ mts :=
      (List.perm_insertionSort (· ≤ ·) mts).mem_iff.mp (List.mem_of_find?_eq_some hf)
    obtain ⟨q, hq⟩ := Option.isSome_iff_exists.mp hp
    refine ⟨mt, hmem, ⟨q, hq, by simp [hq]⟩, ?_⟩
    intro mt2 hmt2 hp2
    exact sorted_find_min _ (List.sorted_insertionSort (· ≤ ·) mts) mt hf mt2
      ((List.perm_insertionSort (· ≤ ·) mts).mem_iff.mpr hmt2) hp2

/-- Every tuple recorded by the registry loop comes from a triggered
registry entry and carries that entry's name and looked-up Q value. -/
theorem rxLoop_mem (inp : NuclideInput) (t : List (Nat × ℚ)) :
    ∀ (l : List RegEntry) (rt : ReactionTuple), rt ∈ (rxLoop inp t l).1 →
      ∃ e ∈ l, rt.type = e.name ∧ rt.Q = qLookup e.mts t := by
  intro l
  induction l with
  | nil => intro rt h; simp [rxLoop] at h
  | cons e rest ih =>
    intro rt h
    cases hr : rxLoop inp t rest with
    | mk ts ms =>
      simp only [rxLoop, hr] at h
      split at h
      · split at h
        · rcases List.mem_cons.mp h with rfl | h2
          · exact ⟨e, List.mem_cons_self e rest, rfl, rfl⟩
          · obtain ⟨e2, he2, hn, hq⟩ := ih rt (by rw [hr]; exact h2)
            exact ⟨e2, List.mem_cons_of_mem e he2, hn, hq⟩
        · rcases List.mem_cons.mp h with rfl | h2
          · exact ⟨e, List.mem_cons_self e rest, rfl, rfl⟩
          · obtain ⟨e2, he2, hn, hq⟩ := ih rt (by rw [hr]; exact h2)
            exact ⟨e2, List.mem_cons_of_mem e he2, hn, hq⟩
      · obtain ⟨e2, he2, hn, hq⟩ := ih rt (by rw [hr]; exact h)
        exact ⟨e2, List.mem_cons_of_mem e he2, hn, hq⟩

/-- C4: every recorded transmutation reaction's Q value is the table entry
of the numerically smallest matching MT code of its registry entry present
in the reaction table, or zero when no matching MT code has an entry. -/
theorem c4_reaction_q_value (inp : NuclideInput) (t : List (Nat × ℚ))
    (rt : ReactionTuple) (hmem : rt ∈ (rxLoop inp t inp.registry).1) :
    ∃ e ∈ inp.registry, rt.type = e.name ∧
      ((∃ mt ∈ e.mts, (∃ q, t.lookup mt = some q ∧ rt.Q = q) ∧
          ∀ mt2 ∈ e.mts, (t.lookup mt2).isSome → mt ≤ mt2) ∨
       ((∀ mt ∈ e.mts, t.lookup mt = none) ∧ rt.Q = 0)) := by
  obtain ⟨e, he, hname, hq⟩ := rxLoop_mem inp t inp.registry rt hmem
  refine ⟨e, he, hname, ?_⟩
  rcases qLookup_spec e.mts t with ⟨mt, hmt, ⟨q, hlq, hval⟩, hmin⟩ | ⟨hall, hval⟩
  · exact Or.inl ⟨mt, hmt, ⟨q, hlq, by rw [hq, hval]⟩, hmin⟩
  · exact Or.inr ⟨hall, by rw [hq, hval]⟩

/-- Witness for c4_reaction_q_value: the recorded (n,2n) tuple of exC4 has
the Q value 9 stored for MT=16. -/
theorem c4_reaction_q_value_witness :
    (⟨"(n,2n)", RxTarget.nothing, 9, 1⟩ : ReactionTuple) ∈
      (rxLoop exC4 exC4t exC4.registry).1 ∧
    ∃ e ∈ exC4.registry, "(n,2n)" = e.name ∧
      ((∃ mt ∈ e.mts, (∃ q, exC4t.lookup mt = some q ∧ (9 : ℚ) = q) ∧
          ∀ mt2 ∈ e.mts, (exC4t.lookup mt2).isSome → mt ≤ mt2) ∨
       ((∀ mt ∈ e.mts, exC4t.lookup mt = none) ∧ (9 : ℚ) = 0)) :=
  ⟨by decide,
   c4_reaction_q_value exC4 exC4t ⟨"(n,2n)", RxTarget.nothing, 9, 1⟩ (by decide)⟩

/-- The tuple built for a registry entry always carries the entry's name. -/
theorem mkRx_type (inp : NuclideInput) (t : List (Nat × ℚ)) (e : RegEntry) :
    (mkRx inp t e).type = e.name := by
  unfold mkRx
  split <;> rfl

/-- Characterization of the registry loop as filtered maps over the
registry: one tuple per triggered entry, one missing-product warning per
triggered entry with absent daughter. -/
theorem rxLoop_eq (inp : NuclideInput) (t : List (Nat × ℚ)) :
    ∀ l : List RegEntry,
      rxLoop inp t l =
        ((l.filter (triggered t)).map (mkRx inp t),
         (l.filter fun e =>
            triggered t e && !decide (daughterName inp e ∈ inp.decayKeys)).map
           fun e => (inp.parent, e.name, daughterName inp e)) := by
  intro l
  induction l with
  | nil => rfl
  | cons e rest ih =>
    simp only [rxLoop, ih, List.filter_cons]
    by_cases h1 : triggered t e = true
    · by_cases h2 : daughterName inp e ∈ inp.decayKeys <;>
        simp [h1, h2, mkRx]
    · simp [h1]

/-- Under pairwise distinct registry names, the warning list of the
registry loop counts a fixed entry's triple exactly once. -/
theorem count_warn_unique (parent : String) (dN : RegEntry → String)
    (p2 : RegEntry → Bool) (e : RegEntry) :
    ∀ l : List RegEntry, (l.map (·.name)).Nodup → e ∈ l → p2 e = true →
      ((l.filter p2).map (fun e2 => (parent, e2.name, dN e2))).count
        (parent, e.name, dN e) = 1 := by
  intro l
  induction l with
  | nil => intro _ he; simp at he
  | cons a rest ih =>
    intro hnd he hpe
    simp only [List.map_cons, List.nodup_cons] at hnd
    rcases List.mem_cons.mp he with rfl | he2
    · rw [List.filter_cons_of_pos hpe]
      simp only [List.map_cons, List.count_cons_self]
      have hz : ((rest.filter p2).map
          (fun e2 => (parent, e2.name, dN e2))).count (parent, e.name, dN e) = 0 := by
        rw [List.count_eq_zero]
        intro hmem
        obtain ⟨e2, he2f, heq⟩ := List.mem_map.mp hmem
        have hname : e2.name = e.name := by
          have := congrArg (fun x => x.2.1) heq
          simpa using this
        exact hnd.1 (by
          rw [← hname]
          exact List.mem_map_of_mem _ (List.mem_of_mem_filter he2f))
      rw [hz]
    · by_cases hpa : p2 a = true
      · rw [List.filter_cons_of_pos hpa]
        simp only [List.map_cons]
        have hne : (parent, e.name, dN e) ≠ (parent, a.name, dN a) := by
          intro heq
          have hname : e.name = a.name := by
            have := congrArg (fun x => x.2.1) heq
            simpa using this
          exact hnd.1 (by
            rw [← hname]
            exact List.mem_map_of_mem _ he2)
        rw [List.count_cons_of_ne hne]
        exact ih hnd.2 he2 hpe
      · rw [List.filter_cons_of_neg hpa]
        exact ih hnd.2 he2 hpe

/-- C6: a triggered registry entry whose computed daughter lacks decay
data records a tuple with the sentinel target, every recorded tuple with
that reaction name has the sentinel target, and exactly one
missing-reaction-product entry is generated for the (parent, reaction,
daughter) triple. -/
theorem c6_sentinel_product (inp : NuclideInput) (t : List (Nat × ℚ))
    (e : RegEntry) (hnd : (inp.registry.map (·.name)).Nodup)
    (he : e ∈ inp.registry) (htr : triggered t e = true)
    (hmiss : daughterName inp e ∉ inp.decayKeys) :
    (⟨e.name, RxTarget.nothing, qLookup e.mts t, 1⟩ : ReactionTuple) ∈
        (rxLoop inp t inp.registry).1 ∧
    (∀ rt ∈ (rxLoop inp t inp.registry).1, rt.type = e.name →
        rt.target = RxTarget.nothing) ∧
    (rxLoop inp t inp.registry).2.count
        (inp.parent, e.name, daughterName inp e) = 1 := by
  rw [rxLoop_eq]
  refine ⟨?_, ?_, ?_⟩
  · simp only
    have hef : e ∈ inp.registry.filter (triggered t) :=
      List.mem_filter.mpr ⟨he, htr⟩
    have := List.mem_map_of_mem (mkRx inp t) hef
    rwa [show mkRx inp t e =
      ⟨e.name, RxTarget.nothing, qLookup e.mts t, 1⟩ by simp [mkRx, hmiss]] at this
  · simp only
    intro rt hrt hty
    obtain ⟨e2, he2f, rfl⟩ := List.mem_map.mp hrt
    have he2 : e2 ∈ inp.registry := List.mem_of_mem_filter he2f
    have hname : e2.name = e.name := by rw [← mkRx_type inp t e2, hty]
    have : e2 = e := List.inj_on_of_nodup_map hnd he2 he hname
    subst this
    simp [mkRx, hmiss]
  · simp only
    exact count_warn_unique inp.parent (daughterName inp) _ e inp.registry hnd he
      (by simp [htr, hmiss])

/-- Witness for c6_sentinel_product at exC6: daughter Sy11 is absent, the
(n,gamma) tuple carries the sentinel, and one warning triple is counted. -/
theorem c6_sentinel_product_witness :
    ((exC6.registry.map (·.name)).Nodup ∧ triggered exC6t ⟨"(n,gamma)", [102], 1, 0⟩ = true ∧
      daughterName exC6 ⟨"(n,gamma)", [102], 1, 0⟩ ∉ exC6.decayKeys) ∧
    (⟨"(n,gamma)", RxTarget.nothing, qLookup [102] exC6t, 1⟩ : ReactionTuple) ∈
        (rxLoop exC6 exC6t exC6.registry).1 ∧
    (∀ rt ∈ (rxLoop exC6 exC6t exC6.registry).1, rt.type = "(n,gamma)" →
        rt.target = RxTarget.nothing) ∧
    (rxLoop exC6 exC6t exC6.registry).2.count
        (exC6.parent, "(n,gamma)", daughterName exC6 ⟨"(n,gamma)", [102], 1, 0⟩) = 1 :=
  ⟨⟨by decide, by decide, by decide⟩,
   c6_sentinel_product exC6 exC6t ⟨"(n,gamma)", [102], 1, 0⟩
     (by decide) (by decide) (by decide) (by decide)⟩

/-- Counterexample to C2 as stated: exC2bad has the fission MT code 19 in
its reaction table and fission-yield data present, so the claim requires
exactly one synthetic fission entry; the script instead raises a KeyError
on the unguarded MT=18 subscript (line 165) and no output is produced. -/
theorem c2_missing_mt18_aborts : (assembleNuclide exC2bad).2.isOk = false := by
  decide

/-- C2 (amended): when a fission MT code is present, the registry carries
no entry named fission, and the iteration completes, then: if fission-yield
data exists the reaction table necessarily has an MT=18 entry and exactly
one fission tuple is recorded, with zero declared product and the MT=18 Q
value; if fission-yield data is absent, no fission tuple is recorded and
the parent is logged in the missing-fission-yield list. -/
theorem c2_fission_entry (inp : NuclideInput) (t : List (Nat × ℚ))
    (out : AssembleOut)
    (ht : inp.rxTable = some t)
    (hok : (assembleNuclide inp).2 = .ok out)
    (htrig : fissionMTs.any (fun mt => (t.lookup mt).isSome) = true)
    (hreg : ∀ e ∈ inp.registry, e.name ≠ "fission") :
    (inp.fpy.isSome = true →
      ∃ q, t.lookup 18 = some q ∧
        out.nuclide.reactions.filter (fun rt => decide (rt.type = "fission")) =
          [⟨"fission", RxTarget.intZero, q, 1⟩] ∧
        out.missing_fpy = []) ∧
    (inp.fpy = none →
      out.nuclide.reactions.filter (fun rt => decide (rt.type = "fission")) = [] ∧
      out.missing_fpy = [inp.parent]) := by
  obtain ⟨fr, ydata, yws, hf, hy, rfl⟩ := assembleNuclide_ok inp out hok
  simp only [fissionPart, ht] at hf
  unfold fissionStage at hf
  rw [if_pos htrig] at hf
  have hrxfil : (rxPart inp).1.filter (fun rt => decide (rt.type = "fission")) = [] := by
    rw [List.filter_eq_nil_iff]
    intro rt hrt
    simp only [rxPart, ht] at hrt
    obtain ⟨e, he, hn, _⟩ := rxLoop_mem inp t inp.registry rt hrt
    simp [hn, hreg e he]
  cases hfpy : inp.fpy with
  | none =>
    rw [hfpy] at hf
    simp only [Option.isSome_none] at hf
    rw [if_neg (by simp)] at hf
    simp only [Except.ok.injEq] at hf
    subst hf
    refine ⟨by simp, fun _ => ?_⟩
    simp only [List.filter_append, hrxfil]
    simp
  | some f =>
    rw [hfpy] at hf
    simp only [Option.isSome_some] at hf
    rw [if_pos trivial] at hf
    cases hl : t.lookup 18 with
    | none => rw [hl] at hf; simp at hf
    | some q =>
      rw [hl] at hf
      simp only [Except.ok.injEq] at hf
      subst hf
      refine ⟨fun _ => ⟨q, rfl, ?_, by simp⟩, by simp [hfpy]⟩
      simp only [List.filter_append, hrxfil]
      simp

/-- Witness for c2_fission_entry at exC2: MT=18 has Q value 7 and exactly
one fission tuple with that Q value is recorded. -/
theorem c2_fission_entry_witness :
    (assembleNuclide exC2).2 = .ok exC2out ∧
    exC2out.nuclide.reactions.filter (fun rt => decide (rt.type = "fission")) =
      [⟨"fission", RxTarget.intZero, 7, 1⟩] ∧
    exC2out.missing_fpy = [] := by
  have hok : (assembleNuclide exC2).2 = .ok exC2out := by rfl
  obtain ⟨q, hq, hfil, hmf⟩ :=
    (c2_fission_entry exC2 [(18, 7), (102, 2)] exC2out rfl hok (by decide)
      (by decide)).1 (by decide)
  have hq7 : q = 7 := by
    have : some (7 : ℚ) = some q := by rw [← hq]; decide
    injection this with h
    exact h.symm
  subst hq7
  exact ⟨hok, hfil, hmf⟩

/-- Looking up a key that occurs in an association list succeeds. -/
theorem lookup_isSome_of_mem_keys {β : Type} (l : List (String × β)) (a : String)
    (h : a ∈ l.map Prod.fst) : (l.lookup a).isSome = true := by
  induction l with
  | nil => simp at h
  | cons p rest ih =>
    obtain ⟨k, v⟩ := p
    by_cases hak : a = k
    · simp [List.lookup, hak]
    · have h2 : a ∈ rest.map Prod.fst := by
        simpa [hak] using h
      have hbeq : (a == k) = false := beq_eq_false_iff_ne.mpr hak
      simp only [List.lookup, hbeq]
      exact ih h2

/-- Every warning printed by the weighted sub-product loop is a noYields
warning. -/
theorem subYields_warnings (parent product : String) (yd yc : List (String × ℚ)) :
    ∀ (l : List (String × ℚ × Nat)) (acc : List (String × ℚ)),
      ∀ w ∈ (subYields parent yd yc acc product l).1,
        ∃ n, w = Warning.noYields n parent := by
  intro l
  induction l with
  | nil => intro acc w hw; simp [subYields] at hw
  | cons s rest ih =>
    intro acc w hw
    obtain ⟨n, wt, c⟩ := s
    simp only [subYields] at hw
    split at hw
    · rcases List.mem_cons.mp hw with rfl | hw2
      · exact ⟨n, rfl⟩
      · exact ih acc w hw2
    · split at hw
      · exact ih _ w hw
      · split at hw
        · split at hw
          · simp at hw
          · exact ih _ w hw
        · exact ih acc w hw

/-- When the product occurs in the independent table, no warning printed
for it is a noIndependentYields warning. -/
theorem productYield_no_indep (parent : String) (casl : String → CaslEntry)
    (decayKeys : List String) (yd yc : List (String × ℚ))
    (acc : List (String × ℚ)) (p : String) (hmem : p ∈ yd.map Prod.fst) :
    ∀ w ∈ (productYield parent casl decayKeys yd yc acc p).1,
      w.isNoIndep = false := by
  intro w hw
  unfold productYield at hw
  by_cases hdk : p ∈ decayKeys
  · rw [if_pos hdk] at hw
    by_cases h1 : (casl p).ifpy = 1
    · rw [if_pos h1] at hw
      cases hl : yd.lookup p with
      | none => exact absurd (lookup_isSome_of_mem_keys yd p hmem) (by simp [hl])
      | some v => rw [hl] at hw; simp at hw
    · rw [if_neg h1] at hw
      by_cases h2 : (casl p).ifpy = 2
      · rw [if_pos h2] at hw
        cases hl : yc.lookup p with
        | none =>
          rw [hl] at hw
          have : w = Warning.noCumulativeYields p parent := by simpa using hw
          subst this
          rfl
        | some v => rw [hl] at hw; simp at hw
      · rw [if_neg h2] at hw
        by_cases h3 : (casl p).ifpy = 3
        · rw [if_pos h3] at hw
          obtain ⟨n, rfl⟩ := subYields_warnings parent p yd yc _ acc w hw
          rfl
        · rw [if_neg h3] at hw
          simp at hw
  · rw [if_neg hdk] at hw
    simp at hw

/-- No warning printed by the product fold over a sublist of the
independent table's keys is a noIndependentYields warning. -/
theorem prodFold_no_indep (parent : String) (casl : String → CaslEntry)
    (decayKeys : List String) (yd yc : List (String × ℚ)) :
    ∀ (ps : List String) (acc : List (String × ℚ)),
      (∀ p ∈ ps, p ∈ yd.map Prod.fst) →
      ∀ w ∈ (prodFold parent casl decayKeys yd yc acc ps).1,
        w.isNoIndep = false := by
  intro ps
  induction ps with
  | nil => intro acc _ w hw; simp [prodFold] at hw
  | cons p rest ih =>
    intro acc hsub w hw
    simp only [prodFold] at hw
    split at hw
    · rename_i ws e hpe
      exact productYield_no_indep parent casl decayKeys yd yc acc p
        (hsub p (List.mem_cons_self p rest)) w (by rw [hpe]; exact hw)
    · rename_i ws acc2 hpe
      simp only [List.mem_append] at hw
      rcases hw with hw1 | hw2
      · exact productYield_no_indep parent casl decayKeys yd yc acc p
          (hsub p (List.mem_cons_self p rest)) w (by rw [hpe]; exact hw1)
      · exact ih acc2 (fun q hq => hsub q (List.mem_cons_of_mem p hq)) w hw2

/-- No warning printed by the per-energy row fold is a noIndependentYields
warning. -/
theorem rowFold_no_indep (parent : String) (casl : String → CaslEntry)
    (decayKeys : List String) :
    ∀ rows, ∀ w ∈ (rowFold parent casl decayKeys rows).1,
      w.isNoIndep = false := by
  intro rows
  induction rows with
  | nil => intro w hw; simp [rowFold] at hw
  | cons r rest ih =>
    intro w hw
    obtain ⟨e, yd, yc⟩ := r
    simp only [rowFold] at hw
    split at hw
    · rename_i ws err hpf
      exact prodFold_no_indep parent casl decayKeys yd yc (yd.map Prod.fst) []
        (fun p hp => hp) w (by rw [hpf]; exact hw)
    · rename_i ws ys hpf
      simp only [List.mem_append] at hw
      rcases hw with hw1 | hw2
      · exact prodFold_no_indep parent casl decayKeys yd yc (yd.map Prod.fst) []
          (fun p hp => hp) w (by rw [hpf]; exact hw1)
      · exact ih w hw2

/-- The warnings of the yield stage are those of the row fold. -/
theorem yieldsStage_fst (inp : NuclideInput) :
    (yieldsStage inp).1 =
      (match inp.fpy with
       | none => []
       | some f => (rowFold inp.parent inp.casl inp.decayKeys (yieldRows f)).1) := by
  unfold yieldsStage
  cases hfpy : inp.fpy with
  | none => rfl
  | some f =>
    dsimp only
    cases hrf : rowFold inp.parent inp.casl inp.decayKeys (yieldRows f) with
    | mk ws r =>
      cases r <;> rfl

/-- The warnings of one loop iteration are those of the yield stage, or
none at all when the fission check raised first. -/
theorem assembleNuclide_fst (inp : NuclideInput) :
    (assembleNuclide inp).1 =
      (match fissionPart inp with
       | .error _ => []
       | .ok _ => (yieldsStage inp).1) := by
  unfold assembleNuclide
  cases hf : fissionPart inp with
  | error e => rfl
  | ok fr =>
    cases hy : yieldsStage inp with
    | mk yws yres =>
      dsimp only
      cases yres <;> rfl

/-- C10: the independent-yield warning branch is unreachable: since the
products are iterated from the independent table's own keys, no iteration
of the assembly loop ever prints a noIndependentYields warning. -/
theorem c10_no_indep_warning (inp : NuclideInput) :
    (assembleNuclide inp).1.any Warning.isNoIndep = false := by
  rw [assembleNuclide_fst]
  cases hf : fissionPart inp with
  | error e => rfl
  | ok fr =>
    rw [yieldsStage_fst]
    cases hfpy : inp.fpy with
    | none => rfl
    | some f =>
      rw [List.any_eq_false]
      intro w hw
      simp only [Bool.not_eq_true]
      exact rowFold_no_indep inp.parent inp.casl inp.decayKeys (yieldRows f) w hw

/-- A defaultdict update only adds the updated key. -/
theorem addYield_keys (acc : List (String × ℚ)) (p : String) (v : ℚ) :
    ∀ a ∈ (addYield acc p v).map Prod.fst, a = p ∨ a ∈ acc.map Prod.fst := by
  induction acc with
  | nil => intro a h; simp [addYield] at h; simp [h]
  | cons qw rest ih =>
    intro a h
    obtain ⟨q, w⟩ := qw
    simp only [addYield] at h
    split at h
    · rcases (by simpa using h : a = q ∨ a ∈ rest.map Prod.fst) with rfl | h2
      · right; simp
      · right; simp [h2]
    · rcases (by simpa using h : a = q ∨ a ∈ (addYield rest p v).map Prod.fst) with rfl | h2
      · right; simp
      · rcases ih a h2 with h3 | h3
        · left; exact h3
        · right; simp [h3]

/-- A successful weighted sub-product loop only adds the product's key. -/
theorem subYields_keys (parent product : String) (yd yc : List (String × ℚ)) :
    ∀ (l : List (String × ℚ × Nat)) (acc acc2 : List (String × ℚ)),
      (subYields parent yd yc acc product l).2 = .ok acc2 →
      ∀ a ∈ acc2.map Prod.fst, a = product ∨ a ∈ acc.map Prod.fst := by
  intro l
  induction l with
  | nil =>
    intro acc acc2 h a ha
    simp only [subYields, Except.ok.injEq] at h
    subst h
    exact Or.inr ha
  | cons s rest ih =>
    intro acc acc2 h a ha
    obtain ⟨n, w, c⟩ := s
    simp only [subYields] at h
    split at h
    · exact ih acc acc2 h a ha
    · split at h
      · rcases ih _ acc2 h a ha with h1 | h2
        · exact Or.inl h1
        · rcases addYield_keys acc product _ a h2 with h3 | h4
          · exact Or.inl h3
          · exact Or.inr h4
      · split at h
        · split at h
          · simp at h
          · rcases ih _ acc2 h a ha with h1 | h2
            · exact Or.inl h1
            · rcases addYield_keys acc product _ a h2 with h3 | h4
              · exact Or.inl h3
              · exact Or.inr h4
        · exact ih acc acc2 h a ha

/-- A successful product step only adds the product's key, and only when
the product has decay data. -/
theorem productYield_keys (parent : String) (casl : String → CaslEntry)
    (decayKeys : List String) (yd yc : List (String × ℚ))
    (acc acc2 : List (String × ℚ)) (p : String)
    (h : (productYield parent casl decayKeys yd yc acc p).2 = .ok acc2) :
    ∀ a ∈ acc2.map Prod.fst, (a = p ∧ p ∈ decayKeys) ∨ a ∈ acc.map Prod.fst := by
  intro a ha
  unfold productYield at h
  by_cases hdk : p ∈ decayKeys
  · rw [if_pos hdk] at h
    by_cases h1 : (casl p).ifpy = 1
    · rw [if_pos h1] at h
      cases hl : yd.lookup p with
      | none =>
        rw [hl] at h
        simp only [Except.ok.injEq] at h
        subst h
        exact Or.inr ha
      | some v =>
        rw [hl] at h
        simp only [Except.ok.injEq] at h
        subst h
        rcases addYield_keys acc p v a ha with h2 | h2
        · exact Or.inl ⟨h2, hdk⟩
        · exact Or.inr h2
    · rw [if_neg h1] at h
      by_cases h2 : (casl p).ifpy = 2
      · rw [if_pos h2] at h
        cases hl : yc.lookup p with
        | none =>
          rw [hl] at h
          simp only [Except.ok.injEq] at h
          subst h
          exact Or.inr ha
        | some v =>
          rw [hl] at h
          simp only [Except.ok.injEq] at h
          subst h
          rcases addYield_keys acc p v a ha with h3 | h3
          · exact Or.inl ⟨h3, hdk⟩
          · exact Or.inr h3
      · rw [if_neg h2] at h
        by_cases h3 : (casl p).ifpy = 3
        · rw [if_pos h3] at h
          rcases subYields_keys parent p yd yc _ acc acc2 h a ha with h4 | h4
          · exact Or.inl ⟨h4, hdk⟩
          · exact Or.inr h4
        · rw [if_neg h3] at h
          simp only [Except.ok.injEq] at h
          subst h
          exact Or.inr ha
  · rw [if_neg hdk] at h
    simp only [Except.ok.injEq] at h
    subst h
    exact Or.inr ha

/-- A successful product fold only produces keys with decay data or keys
already present. -/
theorem prodFold_keys (parent : String) (casl : String → CaslEntry)
    (decayKeys : List String) (yd yc : List (String × ℚ)) :
    ∀ (ps : List String) (acc acc2 : List (String × ℚ)),
      (prodFold parent casl decayKeys yd yc acc ps).2 = .ok acc2 →
      ∀ a ∈ acc2.map Prod.fst, a ∈ decayKeys ∨ a ∈ acc.map Prod.fst := by
  intro ps
  induction ps with
  | nil =>
    intro acc acc2 h a ha
    simp only [prodFold, Except.ok.injEq] at h
    subst h
    exact Or.inr ha
  | cons p rest ih =>
    intro acc acc2 h a ha
    simp only [prodFold] at h
    split at h
    · simp at h
    · rename_i ws acc3 hpy
      simp only at h
      rcases ih acc3 acc2 h a ha with h1 | h2
      · exact Or.inl h1
      · rcases productYield_keys parent casl decayKeys yd yc acc acc3 p
          (by rw [hpy]) a h2 with ⟨rfl, hdk⟩ | h3
        · exact Or.inl hdk
        · exact Or.inr h3

/-- A successful row fold produces only yield keys with decay data. -/
theorem rowFold_keys (parent : String) (casl : String → CaslEntry)
    (decayKeys : List String) :
    ∀ (rows : List (ℚ × List (String × ℚ) × List (String × ℚ)))
      (rows2 : List (ℚ × List (String × ℚ))),
      (rowFold parent casl decayKeys rows).2 = .ok rows2 →
      ∀ r ∈ rows2, ∀ a ∈ r.2.map Prod.fst, a ∈ decayKeys := by
  intro rows
  induction rows with
  | nil =>
    intro rows2 h r hr
    simp only [rowFold, Except.ok.injEq] at h
    subst h
    simp at hr
  | cons row rest ih =>
    intro rows2 h r hr
    obtain ⟨e, yd, yc⟩ := row
    simp only [rowFold] at h
    split at h
    · simp at h
    · rename_i ws ys hpf
      simp only at h
      cases hrf : (rowFold parent casl decayKeys rest).2 with
      | error err => rw [hrf] at h; simp [Except.map] at h
      | ok rows3 =>
        rw [hrf] at h
        simp only [Except.map, Except.ok.injEq] at h
        subst h
        rcases List.mem_cons.mp hr with rfl | hr2
        · intro a ha
          rcases prodFold_keys parent casl decayKeys yd yc (yd.map Prod.fst)
            [] ys (by rw [hpf]) a ha with h1 | h2
          · exact h1
          · simp at h2
        · exact ih rows3 hrf r hr2

/-- C9: every key of the assembled fission-yield distribution is in the
restricted decay-data set, and a product without decay data contributes
nothing and no warning. -/
theorem c9_yield_keys (inp : NuclideInput) (out : AssembleOut)
    (rows : List (ℚ × List (String × ℚ)))
    (hok : (assembleNuclide inp).2 = .ok out)
    (hyd : out.nuclide.yield_data = some rows) :
    (∀ r ∈ rows, ∀ pv ∈ r.2, pv.1 ∈ inp.decayKeys) ∧
    (∀ parent casl yd yc acc p, p ∉ inp.decayKeys →
       productYield parent casl inp.decayKeys yd yc acc p = ([], .ok acc)) := by
  constructor
  · obtain ⟨fr, ydata, yws, hf, hy, rfl⟩ := assembleNuclide_ok inp out hok
    simp only at hyd
    unfold yieldsStage at hy
    cases hfpy : inp.fpy with
    | none =>
      rw [hfpy] at hy
      simp only [Prod.mk.injEq, Except.ok.injEq] at hy
      rw [← hy.2] at hyd
      simp at hyd
    | some f =>
      rw [hfpy] at hy
      dsimp only at hy
      cases hrf : rowFold inp.parent inp.casl inp.decayKeys (yieldRows f) with
      | mk ws res =>
        rw [hrf] at hy
        cases res with
        | error e => simp at hy
        | ok rows3 =>
          simp only [Prod.mk.injEq, Except.ok.injEq] at hy
          rw [← hy.2] at hyd
          simp only [Option.some.injEq] at hyd
          subst hyd
          intro r hr pv hpv
          exact rowFold_keys inp.parent inp.casl inp.decayKeys (yieldRows f)
            rows3 (by rw [hrf]) r hr pv.1 (List.mem_map_of_mem Prod.fst hpv)
  · intro parent casl yd yc acc p hp
    unfold productYield
    rw [if_neg hp]

/-- Witness for c9_yield_keys at exC9: PM (with decay data) keeps its
yield, ZZ (without decay data) is silently excluded. -/
theorem c9_yield_keys_witness :
    (assembleNuclide exC9).2 = .ok exC9out ∧
    exC9out.nuclide.yield_data = some [(1/4, [("PM", 1/10)])] ∧
    (∀ r ∈ [((1 : ℚ)/4, [("PM", (1 : ℚ)/10)])], ∀ pv ∈ r.2, pv.1 ∈ exC9.decayKeys) :=
  ⟨by rfl, by rfl,
   (c9_yield_keys exC9 exC9out [(1/4, [("PM", 1/10)])] (by rfl) (by rfl)).1⟩

/-- Counterexample to C7 as stated: at exC7bad the weighted-combination
branch references sub-product SV with cumulative code 2; SV is present in
the independent table but absent from the cumulative table, so by the
claim its contribution should be omitted with a printed warning; the
script instead raises a KeyError on the unguarded cumulative-table
subscript (line 210) and the iteration aborts. -/
theorem c7_cumulative_subscript_aborts :
    (assembleNuclide exC7bad).2.isOk = false := by decide

/-- C7 (amended): the per-product dispatch on the treatment code.  Code 1
always adds the independent yield (the product is iterated from the
independent table, so the lookup succeeds).  Code 2 adds the cumulative
yield when present and warns otherwise.  Code 3 runs the weighted
sub-product loop, whose presence check always consults the independent
table regardless of the sub-product's own code: a sub-product absent from
the independent table is warned about and skipped (whatever its code); one
present with code 1 adds the weighted independent yield; one present with
code 2 adds the weighted cumulative yield when the cumulative entry exists
and otherwise raises, aborting the iteration. -/
theorem c7_yield_dispatch (parent : String) (casl : String → CaslEntry)
    (decayKeys : List String) (yd yc : List (String × ℚ))
    (acc : List (String × ℚ)) (product : String)
    (hmem : product ∈ yd.map Prod.fst) (hdk : product ∈ decayKeys) :
    ((casl product).ifpy = 1 →
      ∃ v, yd.lookup product = some v ∧
        productYield parent casl decayKeys yd yc acc product =
          ([], .ok (addYield acc product v))) ∧
    ((casl product).ifpy = 2 →
      ((∃ v, yc.lookup product = some v ∧
          productYield parent casl decayKeys yd yc acc product =
            ([], .ok (addYield acc product v))) ∨
       (yc.lookup product = none ∧
          productYield parent casl decayKeys yd yc acc product =
            ([Warning.noCumulativeYields product parent], .ok acc)))) ∧
    ((casl product).ifpy = 3 →
      productYield parent casl decayKeys yd yc acc product =
        subYields parent yd yc acc product (casl product).special) ∧
    (∀ n w c acc2 rest, yd.lookup n = none →
      subYields parent yd yc acc2 product ((n, w, c) :: rest) =
        (Warning.noYields n parent ::
            (subYields parent yd yc acc2 product rest).1,
         (subYields parent yd yc acc2 product rest).2)) ∧
    (∀ n w acc2 rest v, yd.lookup n = some v →
      subYields parent yd yc acc2 product ((n, w, 1) :: rest) =
        subYields parent yd yc (addYield acc2 product (w * v)) product rest) ∧
    (∀ n w acc2 rest v vc, yd.lookup n = some v → yc.lookup n = some vc →
      subYields parent yd yc acc2 product ((n, w, 2) :: rest) =
        subYields parent yd yc (addYield acc2 product (w * vc)) product rest) ∧
    (∀ n w acc2 rest v, yd.lookup n = some v → yc.lookup n = none →
      (subYields parent yd yc acc2 product ((n, w, 2) :: rest)).2.isOk = false) := by
  refine ⟨?_, ?_, ?_, ?_, ?_, ?_, ?_⟩
  · intro h1
    cases hl : yd.lookup product with
    | none => exact absurd (lookup_isSome_of_mem_keys yd product hmem) (by simp [hl])
    | some v =>
      refine ⟨v, rfl, ?_⟩
      unfold productYield
      rw [if_pos hdk, if_pos h1, hl]
  · intro h2
    have h1 : ¬ (casl product).ifpy = 1 := by omega
    cases hl : yc.lookup product with
    | none =>
      refine Or.inr ⟨rfl, ?_⟩
      unfold productYield
      rw [if_pos hdk, if_neg h1, if_pos h2, hl]
    | some v =>
      refine Or.inl ⟨v, rfl, ?_⟩
      unfold productYield
      rw [if_pos hdk, if_neg h1, if_pos h2, hl]
  · intro h3
    have h1 : ¬ (casl product).ifpy = 1 := by omega
    have h2 : ¬ (casl product).ifpy = 2 := by omega
    unfold productYield
    rw [if_pos hdk, if_neg h1, if_neg h2, if_pos h3]
  · intro n w c acc2 rest hl
    conv_lhs => rw [subYields]
    rw [hl]
  · intro n w acc2 rest v hl
    conv_lhs => rw [subYields]
    rw [hl]
    simp
  · intro n w acc2 rest v vc hl hlc
    conv_lhs => rw [subYields]
    rw [hl, hlc]
    simp
  · intro n w acc2 rest v hl hlc
    conv_lhs => rw [subYields]
    rw [hl, hlc]
    rfl

/-- Witness for c7_yield_dispatch on the exC7 tables: product PW has
treatment code 3 with sub-products A1 (code 1, weighted independent), A2
(code 2, weighted cumulative) and A3 (unrecognized code 5, skipped). -/
theorem c7_yield_dispatch_witness :
    ("PW" ∈ exC7yd.map Prod.fst ∧ "PW" ∈ ["PW"]) ∧
    ((exC7casl "PW").ifpy = 3 →
      productYield "W" exC7casl ["PW"] exC7yd exC7yc [] "PW" =
        subYields "W" exC7yd exC7yc [] "PW" (exC7casl "PW").special) :=
  ⟨⟨by decide, by decide⟩,
   (c7_yield_dispatch "W" exC7casl ["PW"] exC7yd exC7yc [] "PW"
      (by decide) (by decide)).2.2.1⟩

/-- Counterexample to C3 as stated: at exC3bad (a weighted sub-product
with cumulative code present in the independent but not the cumulative
table) the iteration aborts with a raised KeyError instead of warning and
continuing. -/
theorem c3_yield_lookup_aborts : (assembleNuclide exC3bad).2.isOk = false := by
  decide

/-- The weighted sub-product loop succeeds when no entry triggers the
unguarded cumulative lookup. -/
theorem subYields_isOk (parent product : String) (yd yc : List (String × ℚ)) :
    ∀ (l : List (String × ℚ × Nat)) (acc : List (String × ℚ)),
      badSpecial yd yc l = false →
      ((subYields parent yd yc acc product l).2).isOk = true := by
  intro l
  induction l with
  | nil => intro acc _; rfl
  | cons s rest ih =>
    intro acc hbad
    obtain ⟨n, w, c⟩ := s
    rw [show badSpecial yd yc ((n, w, c) :: rest) =
        (((yd.lookup n).isSome && decide (c = 2) && (yc.lookup n).isNone) ||
          badSpecial yd yc rest) from rfl] at hbad
    rw [Bool.or_eq_false_iff] at hbad
    obtain ⟨hhead, hrest⟩ := hbad
    simp only [subYields]
    cases hl : yd.lookup n with
    | none => exact ih acc hrest
    | some v =>
      dsimp only
      by_cases hc1 : c = 1
      · rw [if_pos hc1]
        exact ih _ hrest
      · rw [if_neg hc1]
        by_cases hc2 : c = 2
        · rw [if_pos hc2]
          cases hlc : yc.lookup n with
          | none =>
            rw [hl, hc2, hlc] at hhead
            simp at hhead
          | some vc =>
            dsimp only
            exact ih _ hrest
        · rw [if_neg hc2]
          exact ih acc hrest

/-- A product step succeeds when the product does not trigger the
unguarded cumulative lookup. -/
theorem productYield_isOk (parent : String) (casl : String → CaslEntry)
    (decayKeys : List String) (yd yc : List (String × ℚ)) (p : String)
    (hc : productCrash casl decayKeys yd yc p = false) :
    ∀ acc, ((productYield parent casl decayKeys yd yc acc p).2).isOk = true := by
  intro acc
  unfold productYield
  by_cases hdk : p ∈ decayKeys
  · rw [if_pos hdk]
    by_cases h1 : (casl p).ifpy = 1
    · rw [if_pos h1]
      cases yd.lookup p <;> rfl
    · rw [if_neg h1]
      by_cases h2 : (casl p).ifpy = 2
      · rw [if_pos h2]
        cases yc.lookup p <;> rfl
      · rw [if_neg h2]
        by_cases h3 : (casl p).ifpy = 3
        · rw [if_pos h3]
          apply subYields_isOk
          unfold productCrash at hc
          simpa [hdk, h3] using hc
        · rw [if_neg h3]; rfl
  · rw [if_neg hdk]; rfl

/-- The product fold succeeds when no iterated product triggers the
unguarded cumulative lookup. -/
theorem prodFold_isOk (parent : String) (casl : String → CaslEntry)
    (decayKeys : List String) (yd yc : List (String × ℚ)) :
    ∀ ps : List String,
      (∀ p ∈ ps, productCrash casl decayKeys yd yc p = false) →
      ∀ acc, ((prodFold parent casl decayKeys yd yc acc ps).2).isOk = true := by
  intro ps
  induction ps with
  | nil => intro _ acc; rfl
  | cons p rest ih =>
    intro hall acc
    simp only [prodFold]
    cases hpy : productYield parent casl decayKeys yd yc acc p with
    | mk ws r =>
      cases r with
      | error e =>
        have hok := productYield_isOk parent casl decayKeys yd yc p
          (hall p (List.mem_cons_self p rest)) acc
        rw [hpy] at hok
        simp [Except.isOk, Except.toBool] at hok
      | ok acc2 =>
        dsimp only
        exact ih (fun q hq => hall q (List.mem_cons_of_mem p hq)) acc2

/-- The row fold succeeds when no product of any row triggers the
unguarded cumulative lookup. -/
theorem rowFold_isOk (parent : String) (casl : String → CaslEntry)
    (decayKeys : List String) :
    ∀ rows : List (ℚ × List (String × ℚ) × List (String × ℚ)),
      (∀ r ∈ rows, ∀ p ∈ r.2.1.map Prod.fst,
        productCrash casl decayKeys r.2.1 r.2.2 p = false) →
      ((rowFold parent casl decayKeys rows).2).isOk = true := by
  intro rows
  induction rows with
  | nil => intro _; rfl
  | cons row rest ih =>
    intro hall
    obtain ⟨e, yd, yc⟩ := row
    simp only [rowFold]
    cases hpf : prodFold parent casl decayKeys yd yc [] (yd.map Prod.fst) with
    | mk ws r =>
      cases r with
      | error err =>
        have hok := prodFold_isOk parent casl decayKeys yd yc (yd.map Prod.fst)
          (fun p hp => hall (e, yd, yc) (List.mem_cons_self _ rest) p hp) []
        rw [hpf] at hok
        simp [Except.isOk, Except.toBool] at hok
      | ok ys =>
        dsimp only
        have hih := ih (fun r hr => hall r (List.mem_cons_of_mem _ hr))
        cases hrf : (rowFold parent casl decayKeys rest).2 with
        | error err2 => rw [hrf] at hih; simp [Except.isOk, Except.toBool] at hih
        | ok rows2 => rfl

/-- The yield stage succeeds when the yield-crash condition is absent. -/
theorem yieldsStage_isOk (inp : NuclideInput) (h : yieldCrash inp = false) :
    ∃ yws ydata, yieldsStage inp = (yws, .ok ydata) := by
  unfold yieldsStage
  cases hfpy : inp.fpy with
  | none => exact ⟨[], none, rfl⟩
  | some f =>
    unfold yieldCrash at h
    rw [hfpy] at h
    dsimp only at h
    have hall : ∀ r ∈ yieldRows f, ∀ p ∈ r.2.1.map Prod.fst,
        productCrash inp.casl inp.decayKeys r.2.1 r.2.2 p = false := by
      intro r hr p hp
      have h1 := List.any_eq_false.mp h r hr
      have h2 := List.any_eq_false.mp (by simpa using h1) p hp
      simpa using h2
    have hok := rowFold_isOk inp.parent inp.casl inp.decayKeys (yieldRows f) hall
    cases hrf : rowFold inp.parent inp.casl inp.decayKeys (yieldRows f) with
    | mk ws r =>
      rw [hrf] at hok
      cases r with
      | error err => simp [Except.isOk, Except.toBool] at hok
      | ok rows =>
        refine ⟨ws, some rows, ?_⟩
        dsimp only
        rw [hrf]

/-- The fission check succeeds when the fission-crash condition is absent. -/
theorem fissionPart_isOk (inp : NuclideInput) (h : fissionCrash inp = false) :
    ∃ fr, fissionPart inp = .ok fr := by
  unfold fissionPart
  unfold fissionCrash at h
  cases ht : inp.rxTable with
  | none => exact ⟨([], []), rfl⟩
  | some t =>
    rw [ht] at h
    dsimp only at h ⊢
    unfold fissionStage
    by_cases htr : (fissionMTs.any fun mt => (t.lookup mt).isSome) = true
    · rw [if_pos htr]
      by_cases hfp : inp.fpy.isSome = true
      · rw [if_pos hfp]
        simp only [htr, hfp, Bool.true_and] at h
        cases hl : t.lookup 18 with
        | none => rw [hl] at h; simp at h
        | some q => exact ⟨_, rfl⟩
      · rw [if_neg hfp]; exact ⟨_, rfl⟩
    · rw [if_neg htr]; exact ⟨_, rfl⟩

/-- C3 (amended): no operation of the assembly loop aborts the run except
the two unguarded lookups: the MT=18 Q-value subscript (fission MT present,
fission yields present, MT=18 absent) and the cumulative-table subscript in
the weighted-combination branch (sub-product with cumulative code present
in the independent but absent from the cumulative table).  On every input
avoiding those two conditions, the iteration completes. -/
theorem c3_no_abort (inp : NuclideInput)
    (h1 : fissionCrash inp = false) (h2 : yieldCrash inp = false) :
    ((assembleNuclide inp).2).isOk = true := by
  obtain ⟨fr, hf⟩ := fissionPart_isOk inp h1
  obtain ⟨yws, ydata, hy⟩ := yieldsStage_isOk inp h2
  unfold assembleNuclide
  rw [hf, hy]
  rfl

/-- Witness for c3_no_abort: exC3 exercises the decay-skip, reaction,
fission and yield branches and completes. -/
theorem c3_no_abort_witness :
    fissionCrash exC3 = false ∧ yieldCrash exC3 = false ∧
    ((assembleNuclide exC3).2).isOk = true :=
  ⟨by decide, by decide, c3_no_abort exC3 (by decide) (by decide)⟩

end Chain

namespace Cendl

/-- C8: the conversion loop rewrites exactly the two known release-3.1
files in place before conversion (line index 205 of 22-Ti-047.C31 and line
index 203 of 5-B-010.C31, replaced by the hard-coded lines), passes every
other file to the converter unmodified, and registers one manifest entry
per converted file. -/
theorem c8_patch_and_manifest (release dest : String)
    (nameOf : List String → String) (files : List ConvFile)
    (hrel : release = "3.1")
    (hTi : ∀ f ∈ files, f.basename = "22-Ti-047.C31" → 205 < f.lines.length)
    (hB : ∀ f ∈ files, f.basename = "5-B-010.C31" → 203 < f.lines.length) :
    processFiles release nameOf dest files =
      .ok (files.map (fun f => { f with lines := expectedLines f }),
           files.map (fun f => dest ++ "/" ++ nameOf (expectedLines f) ++ ".h5")) := by
  subst hrel
  induction files with
  | nil => rfl
  | cons f rest ih =>
    have hstep : convertOne "3.1" nameOf dest f =
        .ok ({ f with lines := expectedLines f },
             dest ++ "/" ++ nameOf (expectedLines f) ++ ".h5") := by
      unfold convertOne
      have hp : patchFile "3.1" f.basename f.lines = .ok (expectedLines f) := by
        by_cases h1 : f.basename = "22-Ti-047.C31"
        · have h2 : ¬ f.basename = "5-B-010.C31" := by rw [h1]; decide
          have he : expectedLines f = f.lines.set 205 ti47Line := by
            unfold expectedLines; rw [if_pos h1]
          unfold patchFile setLine
          rw [if_pos ⟨rfl, Or.inl h1⟩, if_pos h1,
            if_pos (hTi f (List.mem_cons_self f rest) h1)]
          dsimp only
          rw [if_neg h2, he]
        · by_cases h2 : f.basename = "5-B-010.C31"
          · have he : expectedLines f = f.lines.set 203 b10Line := by
              unfold expectedLines; rw [if_neg h1, if_pos h2]
            unfold patchFile setLine
            rw [if_pos ⟨rfl, Or.inr h2⟩, if_neg h1]
            dsimp only
            rw [if_pos h2, if_pos (hB f (List.mem_cons_self f rest) h2), he]
          · have he : expectedLines f = f.lines := by
              unfold expectedLines; rw [if_neg h1, if_neg h2]
            unfold patchFile
            rw [if_neg (by simp [h1, h2]), he]
      rw [hp]
    simp only [processFiles]
    rw [hstep]
    rw [ih (fun g hg hti => hTi g (List.mem_cons_of_mem f hg) hti)
        (fun g hg hb => hB g (List.mem_cons_of_mem f hg) hb)]
    rfl

set_option maxRecDepth 10000 in
/-- Witness for c8_patch_and_manifest on exC8files: both special files are
patched at their fixed line index, the ordinary file is unchanged, and one
manifest entry per file is produced. -/
theorem c8_patch_and_manifest_witness :
    (∀ f ∈ exC8files, f.basename = "22-Ti-047.C31" → 205 < f.lines.length) ∧
    processFiles "3.1" exC8name "dest" exC8files =
      .ok ([⟨"dir/22-Ti-047.C31", "22-Ti-047.C31", (List.replicate 206 "t").set 205 ti47Line⟩,
            ⟨"dir/5-B-010.C31", "5-B-010.C31", (List.replicate 204 "b").set 203 b10Line⟩,
            ⟨"dir/1-H-001.C31", "1-H-001.C31", ["line0"]⟩],
           ["dest/nuc.h5", "dest/nuc.h5", "dest/nuc.h5"]) := by
  refine ⟨by decide, ?_⟩
  rw [c8_patch_and_manifest "3.1" "dest" exC8name exC8files rfl (by decide) (by decide)]
  rfl

end Cendl
